import Mathlib

/-!
Shallow embedding of `src/service_deployment_tools/generate_deployments_json.py`.

The program scans per-service configuration directories, resolves the set of
tracked branches for each service, queries the remote git repository for the
head commit of every remote branch, and accumulates a mapping from
`"<service>:<branch>"` to `"<service>:<short commit>"`.

External effects are modelled explicitly:
  * the contents of a configuration directory are a list of `ConfigFile`
    values (file name plus parse result);
  * the external git client is an oracle `GitResult` attached to each service
    (either the textual output of `git ls-remote -h`, or a raised
    `GitCommandError`);
  * log output is returned alongside results;
  * an uncaught Python exception is an `Except.error` value that propagates
    to the end of the run.
-/

namespace GenerateDeploymentsJson

/-- Values of interest that may appear under a key of an instance
configuration record: the Python `None` value or a string. -/
inductive PyVal where
  | pnone : PyVal
  | pstr : String → PyVal
deriving DecidableEq

/-- Python truthiness for `PyVal`: `None` and the empty string are falsy,
every other string is truthy. -/
def truthy : PyVal → Bool
  | .pnone => false
  | .pstr s => s != ""

/-- When `pre` occurs as a leading segment of `s`, return the remainder of
`s` after that segment; otherwise `none`. -/
def dropPre? : List Char → List Char → Option (List Char)
  | [], s => some s
  | _ :: _, [] => none
  | c :: cs, d :: ds => if c = d then dropPre? cs ds else none

/-- Fuel-driven worker for `pySplit`.  The fuel bounds the number of input
characters still to be consumed, so calling it with the length of the input
(and a non-empty separator) computes Python `str.split`: scan left to right,
cut at each non-overlapping occurrence of the separator. -/
def pySplitAux (sep : List Char) : Nat → List Char → List (List Char)
  | _, [] => [[]]
  | 0, s => [s]
  | n + 1, c :: rest =>
    match dropPre? sep (c :: rest) with
    | some remainder => [] :: pySplitAux sep n remainder
    | none =>
      match pySplitAux sep n rest with
      | [] => [c :: rest]
      | r :: rs => (c :: r) :: rs

/-- Python `s.split(sep)` for a non-empty separator `sep`. -/
def pySplit (s sep : String) : List String :=
  (pySplitAux sep.data s.data.length s.data).map String.mk

/-- Python `sub in s` substring membership for a non-empty `sub`:
the separator occurs iff splitting on it yields more than one part. -/
def pyContains (s sub : String) : Bool :=
  (pySplit s sub).length != 1

/-- Python slice `s[0:n]`. -/
def pyTake (s : String) (n : Nat) : String :=
  String.mk (s.data.take n)

/-- The projection of one instance configuration record that the program
inspects: the `branch` key (absent, or present with its value) and whether a
`docker_image` key is present.  All other keys are ignored by the code. -/
structure InstanceConfig where
  branch : Option PyVal
  dockerImagePresent : Bool
deriving DecidableEq

/-- The branch name derived from a configuration file name by
`filename.split('-')[1].split('.')[0]`; the `IndexError` raised when index
`[1]` does not exist is caught by the code (`except IndexError: pass`) and is
modelled as `none`.  Index `[0]` of the second split always exists. -/
def clusterToken (filename : String) : Option String :=
  match pySplit filename "-" with
  | _ :: p :: _ => some ((pySplit p ".").headD "")
  | _ => none

/-- The target branch the loop body of `get_branches_from_marathon_file`
computes for one instance record: the value of the `branch` key when present,
otherwise (when no `docker_image` key is present) the cluster token of the
file name, otherwise nothing. -/
def instanceTargetBranch (filename : String) (c : InstanceConfig) : Option PyVal :=
  match c.branch with
  | some v => some v
  | none =>
    if !c.dockerImagePresent then (clusterToken filename).map PyVal.pstr
    else none

/-- Python `set.add` on a deterministic list model of a set: append the value
unless it is already present. -/
def setAdd (s : List PyVal) (v : PyVal) : List PyVal :=
  if v ∈ s then s else s ++ [v]

/-- Loop body of `get_branches_from_marathon_file`: add the instance target
branch to the accumulating set when it is truthy (`if target_branch:`). -/
def fileStep (filename : String) (acc : List PyVal) (inst : String × InstanceConfig) :
    List PyVal :=
  match instanceTargetBranch filename inst.2 with
  | some v => if truthy v then setAdd acc v else acc
  | none => acc

/-- Embedding of `get_branches_from_marathon_file`: all branches defined in a
single service configuration file, given its parsed instance records. -/
def get_branches_from_marathon_file (filename : String)
    (config : List (String × InstanceConfig)) : List PyVal :=
  config.foldl (fileStep filename) []

/-- A configuration file of a service directory: its name and its parse
result (`none` when the file cannot be parsed). -/
structure ConfigFile where
  name : String
  parsed : Option (List (String × InstanceConfig))
deriving DecidableEq

/-- Modelled from the spec: `service_configuration_lib.read_service_information`
is an external library function whose code is not part of these sources.  Per
the spec, a configuration file that cannot be parsed is logged and skipped —
it contributes nothing — so a parse failure yields the empty instance
mapping. -/
def read_service_information (f : ConfigFile) : List (String × InstanceConfig) :=
  f.parsed.getD []

/-- Loop body of `get_branches_for_service`: union in the branches of each
file whose name contains the substring `marathon-`. -/
def dirStep (acc : List PyVal) (f : ConfigFile) : List PyVal :=
  if pyContains f.name "marathon-" then
    (get_branches_from_marathon_file f.name (read_service_information f)).foldl setAdd acc
  else acc

/-- Embedding of `get_branches_for_service`: all branches defined in marathon
configuration files of one service directory. -/
def get_branches_for_service (dir : List ConfigFile) : List PyVal :=
  dir.foldl dirStep []

/-- Embedding of `get_git_url`. -/
def get_git_url (service : String) : String :=
  "git@git.yelpcorp.com:services/" ++ service ++ ".git"

/-- Outcome of the external `git ls-remote -h` invocation for one service:
its textual output, or a raised `GitCommandError`. -/
inductive GitResult where
  | ok : String → GitResult
  | gitCommandError : GitResult
deriving DecidableEq

/-- An uncaught Python exception that aborts the run. -/
inductive RunError where
  | indexError : RunError
deriving DecidableEq

/-- Parse of one output line of `git ls-remote -h`:
`(branch.split('\t')[0], branch.split('\t')[1].split('refs/heads/')[1])`.
A missing index `[1]` in either split raises `IndexError`. -/
def parseRemoteBranchLine (line : String) : Except RunError (String × String) :=
  match pySplit line "\t" with
  | h :: ref :: _ =>
    match pySplit ref "refs/heads/" with
    | _ :: b :: _ => Except.ok (h, b)
    | _ => Except.error RunError.indexError
  | _ => Except.error RunError.indexError

/-- Left-to-right parse of all output lines; the first `IndexError` raised
aborts the whole list comprehension. -/
def parseLines : List String → Except RunError (List (String × String))
  | [] => Except.ok []
  | l :: ls =>
    match parseRemoteBranchLine l with
    | Except.error e => Except.error e
    | Except.ok p =>
      match parseLines ls with
      | Except.error e => Except.error e
      | Except.ok ps => Except.ok (p :: ps)

/-- The warning the code logs when the remote git query fails. -/
def remoteWarning (service : String) : String :=
  "Service " ++ service ++ " has branches, but the remote git repo is not named " ++ service

/-- Embedding of `get_remote_branches_for_service`: the log lines it emits
and its result.  A `GitCommandError` from the external git client is caught —
a warning is logged and the empty list returned — while an `IndexError` from
parsing the output lines is not caught and propagates. -/
def get_remote_branches_for_service (service : String) (gr : GitResult) :
    List String × Except RunError (List (String × String)) :=
  match gr with
  | GitResult.ok output => ([], parseLines (pySplit output "\n"))
  | GitResult.gitCommandError => ([remoteWarning service], Except.ok [])

/-- One service directory as seen by `get_branch_mappings`: its name, its
configuration files, and the external git outcome for its repository. -/
structure Service where
  name : String
  dir : List ConfigFile
  git : GitResult
deriving DecidableEq

/-- Python dict assignment `m[k] = v` on an association-list model of a dict:
replace the value in place when the key exists, otherwise append. -/
def pyDictInsert : List (String × String) → String → String → List (String × String)
  | [], k, v => [(k, v)]
  | (k0, v0) :: rest, k, v =>
    if k0 = k then (k, v) :: rest else (k0, v0) :: pyDictInsert rest k v

/-- Python dict lookup `m[k]` (as an option). -/
def pyLookup : List (String × String) → String → Option String
  | [], _ => none
  | (k0, v0) :: rest, k => if k0 = k then some v0 else pyLookup rest k

/-- The deployment key `'%s:%s' % (service, branch)`. -/
def mappingKey (service branch : String) : String :=
  service ++ ":" ++ branch

/-- The image tag `'%s:%s' % (service, head[0:6])`. -/
def imageTag (service head : String) : String :=
  service ++ ":" ++ pyTake head 6

/-- Insert a list of key/value pairs into a dict, in order. -/
def insertAll (m : List (String × String)) (ps : List (String × String)) :
    List (String × String) :=
  ps.foldl (fun acc p => pyDictInsert acc p.1 p.2) m

/-- Body of the per-service loop of `get_branch_mappings`, acting on the
accumulating dict `m`: resolve the tracked branches, skip the service when
there are none, query the remote, filter the remote refs against the tracked
set, and insert a key/value pair for each surviving ref. -/
def processService (m : List (String × String)) (s : Service) :
    List String × Except RunError (List (String × String)) :=
  let valid := get_branches_for_service s.dir
  if valid.isEmpty then ([], Except.ok m)
  else
    match get_remote_branches_for_service s.name s.git with
    | (logs, Except.error e) => (logs, Except.error e)
    | (logs, Except.ok remotes) =>
      (logs, Except.ok (insertAll m
        (((remotes.filter fun p => decide (PyVal.pstr p.2 ∈ valid))).map
          fun p => (mappingKey s.name p.2, imageTag s.name p.1))))

/-- Fold step of `get_branch_mappings`: thread the dict through each service,
collecting logs; an uncaught exception stops all further processing. -/
def runStep (acc : List String × Except RunError (List (String × String)))
    (s : Service) : List String × Except RunError (List (String × String)) :=
  match acc with
  | (logs, Except.error e) => (logs, Except.error e)
  | (logs, Except.ok m) =>
    (logs ++ (processService m s).1, (processService m s).2)

/-- Embedding of `get_branch_mappings`: the logs of the run and either the
final mapping or the uncaught exception that aborted the run. -/
def get_branch_mappings (services : List Service) :
    List String × Except RunError (List (String × String)) :=
  services.foldl runStep ([], Except.ok [])

/-- The ordered list of key/value insertions one service performs (empty when
the service has no tracked branches or its remote query raised a caught
`GitCommandError`), or the uncaught exception its processing raises. -/
def serviceInsertions (s : Service) : Except RunError (List (String × String)) :=
  let valid := get_branches_for_service s.dir
  if valid.isEmpty then Except.ok []
  else
    match (get_remote_branches_for_service s.name s.git).2 with
    | Except.error e => Except.error e
    | Except.ok remotes =>
      Except.ok (((remotes.filter fun p => decide (PyVal.pstr p.2 ∈ valid))).map
        fun p => (mappingKey s.name p.2, imageTag s.name p.1))

/-- Concatenated insertions of a run, or its first uncaught exception. -/
def flatInsertions : List Service → Except RunError (List (String × String))
  | [] => Except.ok []
  | s :: rest =>
    match serviceInsertions s with
    | Except.error e => Except.error e
    | Except.ok ins =>
      match flatInsertions rest with
      | Except.error e => Except.error e
      | Except.ok restIns => Except.ok (ins ++ restIns)

/-- The value of the last pair with key `k` in a list of insertions. -/
def lastLookup : List (String × String) → String → Option String
  | [], _ => none
  | p :: ps, k =>
    match lastLookup ps k with
    | some v => some v
    | none => if p.1 = k then some p.2 else none

/-! ### Concrete fixtures used by witnesses and counterexamples -/

/-- A configuration file with one instance `main` pinned to branch `b`. -/
def fileBranchB : ConfigFile :=
  ⟨"marathon-devc.yaml", some [("main", ⟨some (PyVal.pstr "b"), false⟩)]⟩

/-- A configuration file with one instance `main` having neither a `branch`
nor a `docker_image` key. -/
def fileNoKeys : ConfigFile :=
  ⟨"marathon-devc.yaml", some [("main", ⟨none, false⟩)]⟩

/-- A configuration file that fails to parse. -/
def badParseFile : ConfigFile :=
  ⟨"marathon-bad.yaml", none⟩

/-- A service tracking branch `b` whose remote query succeeds, listing the
tracked branch `b` and an untracked branch `c`. -/
def svcGood : Service :=
  ⟨"good", [fileBranchB],
    GitResult.ok "1234567890\trefs/heads/b\nfedcba9876\trefs/heads/c"⟩

/-- A service tracking branch `b` whose remote query raises
`GitCommandError`. -/
def svcBad : Service :=
  ⟨"bad", [fileBranchB], GitResult.gitCommandError⟩

/-- A service whose remote listing names branch `b` twice, at two different
commits. -/
def svcDup : Service :=
  ⟨"svc", [fileBranchB],
    GitResult.ok "aaaaaaaaaa\trefs/heads/b\nbbbbbbbbbb\trefs/heads/b"⟩

/-- A service with tracked branches whose remote query succeeds with empty
output (a remote repository with no branches). -/
def svcEmptyOutput : Service :=
  ⟨"svc", [fileBranchB], GitResult.ok ""⟩

/-! ### Helper lemmas about the set model -/

theorem mem_setAdd {x v : PyVal} {s : List PyVal} :
    x ∈ setAdd s v ↔ x ∈ s ∨ x = v := by
  unfold setAdd
  by_cases h : v ∈ s
  · rw [if_pos h]
    constructor
    · exact Or.inl
    · rintro (hx | rfl)
      · exact hx
      · exact h
  · rw [if_neg h]
    simp [List.mem_append]

theorem mem_foldl_setAdd {x : PyVal} :
    ∀ (l : List PyVal) (acc : List PyVal),
    x ∈ l.foldl setAdd acc ↔ x ∈ acc ∨ x ∈ l := by
  intro l
  induction l with
  | nil => intro acc; simp
  | cons v l ih =>
    intro acc
    rw [List.foldl_cons, ih, mem_setAdd]
    simp [List.mem_cons]
    tauto

theorem isEmpty_false_of_mem {x : PyVal} {l : List PyVal} (h : x ∈ l) :
    l.isEmpty = false := by
  cases l with
  | nil => cases h
  | cons a l => rfl

/-! ### Membership characterization of branch resolution -/

theorem mem_foldl_fileStep {fname : String} {x : PyVal} :
    ∀ (config : List (String × InstanceConfig)) (acc : List PyVal),
    x ∈ config.foldl (fileStep fname) acc ↔
      x ∈ acc ∨ ∃ i ∈ config,
        instanceTargetBranch fname i.2 = some x ∧ truthy x = true := by
  intro config
  induction config with
  | nil => intro acc; simp
  | cons i config ih =>
    intro acc
    rw [List.foldl_cons, ih]
    have hstep : x ∈ fileStep fname acc i ↔
        x ∈ acc ∨ (instanceTargetBranch fname i.2 = some x ∧ truthy x = true) := by
      cases h : instanceTargetBranch fname i.2 with
      | none =>
        have hf : fileStep fname acc i = acc := by
          unfold fileStep; rw [h]
        rw [hf]
        simp
      | some v =>
        cases ht : truthy v with
        | true =>
          have hf : fileStep fname acc i = setAdd acc v := by
            unfold fileStep; rw [h]; simp [ht]
          rw [hf, mem_setAdd]
          constructor
          · rintro (hx | rfl)
            · exact Or.inl hx
            · exact Or.inr ⟨rfl, ht⟩
          · rintro (hx | ⟨hv, hxt⟩)
            · exact Or.inl hx
            · exact Or.inr (Option.some.inj hv).symm
        | false =>
          have hf : fileStep fname acc i = acc := by
            unfold fileStep; rw [h]; simp [ht]
          rw [hf]
          constructor
          · exact Or.inl
          · rintro (hx | ⟨hv, hxt⟩)
            · exact hx
            · have hvx := Option.some.inj hv
              rw [← hvx, ht] at hxt
              simp at hxt
    rw [hstep]
    simp [List.mem_cons, or_and_right, exists_or]
    tauto

theorem mem_get_branches_from_marathon_file {fname : String} {x : PyVal}
    {config : List (String × InstanceConfig)} :
    x ∈ get_branches_from_marathon_file fname config ↔
      ∃ i ∈ config, instanceTargetBranch fname i.2 = some x ∧ truthy x = true := by
  unfold get_branches_from_marathon_file
  rw [mem_foldl_fileStep]
  simp

theorem mem_foldl_dirStep {x : PyVal} :
    ∀ (dir : List ConfigFile) (acc : List PyVal),
    x ∈ dir.foldl dirStep acc ↔
      x ∈ acc ∨ ∃ f ∈ dir, pyContains f.name "marathon-" = true ∧
        x ∈ get_branches_from_marathon_file f.name (read_service_information f) := by
  intro dir
  induction dir with
  | nil => intro acc; simp
  | cons f dir ih =>
    intro acc
    rw [List.foldl_cons, ih]
    have hstep : x ∈ dirStep acc f ↔
        x ∈ acc ∨ (pyContains f.name "marathon-" = true ∧
          x ∈ get_branches_from_marathon_file f.name (read_service_information f)) := by
      cases hc : pyContains f.name "marathon-" with
      | true =>
        have hf : dirStep acc f =
            (get_branches_from_marathon_file f.name (read_service_information f)).foldl
              setAdd acc := by
          unfold dirStep; rw [hc]; simp
        rw [hf, mem_foldl_setAdd]
        simp
      | false =>
        have hf : dirStep acc f = acc := by
          unfold dirStep; rw [hc]; simp
        rw [hf]
        simp
    rw [hstep]
    simp [List.mem_cons, or_and_right, exists_or]
    tauto

theorem mem_get_branches_for_service {x : PyVal} {dir : List ConfigFile} :
    x ∈ get_branches_for_service dir ↔
      ∃ f ∈ dir, pyContains f.name "marathon-" = true ∧
        x ∈ get_branches_from_marathon_file f.name (read_service_information f) := by
  unfold get_branches_for_service
  rw [mem_foldl_dirStep]
  simp

/-! ### Helper lemmas about the dict model -/

theorem pyLookup_pyDictInsert (m : List (String × String)) (a bv k : String) :
    pyLookup (pyDictInsert m a bv) k = if a = k then some bv else pyLookup m k := by
  induction m with
  | nil => simp [pyDictInsert, pyLookup]
  | cons p rest ih =>
    obtain ⟨k0, v0⟩ := p
    by_cases h : k0 = a
    · subst h
      by_cases hk : k0 = k
      · subst hk; simp [pyDictInsert, pyLookup]
      · simp [pyDictInsert, pyLookup, hk]
    · by_cases hk : k0 = k
      · subst hk
        have hak : ¬ a = k0 := fun hh => h hh.symm
        simp [pyDictInsert, pyLookup, h, hak]
      · simp [pyDictInsert, pyLookup, h, hk, ih]

theorem lastLookup_append (l₁ l₂ : List (String × String)) (k : String) :
    lastLookup (l₁ ++ l₂) k =
      match lastLookup l₂ k with
      | some v => some v
      | none => lastLookup l₁ k := by
  induction l₁ with
  | nil =>
    rw [List.nil_append]
    cases o : lastLookup l₂ k <;> simp [lastLookup]
  | cons p l₁ ih =>
    rw [List.cons_append]
    show (match lastLookup (l₁ ++ l₂) k with
      | some v => some v
      | none => if p.1 = k then some p.2 else none) = _
    rw [ih]
    cases o : lastLookup l₂ k <;> cases o1 : lastLookup l₁ k <;> simp [lastLookup, o, o1]

theorem lastLookup_eq_none {ps : List (String × String)} {k : String}
    (h : k ∉ ps.map Prod.fst) : lastLookup ps k = none := by
  induction ps with
  | nil => rfl
  | cons p ps ih =>
    rw [List.map_cons, List.mem_cons] at h
    push_neg at h
    obtain ⟨h1, h2⟩ := h
    show (match lastLookup ps k with
      | some v => some v
      | none => if p.1 = k then some p.2 else none) = none
    rw [ih h2]
    have hne : ¬ p.1 = k := fun hh => h1 hh.symm
    simp [hne]

theorem insertAll_append (m : List (String × String))
    (a b : List (String × String)) :
    insertAll m (a ++ b) = insertAll (insertAll m a) b := by
  unfold insertAll
  rw [List.foldl_append]

theorem pyLookup_insertAll (ps : List (String × String)) :
    ∀ (m : List (String × String)) (k : String),
    pyLookup (insertAll m ps) k =
      match lastLookup ps k with
      | some v => some v
      | none => pyLookup m k := by
  induction ps with
  | nil => intro m k; rfl
  | cons p ps ih =>
    intro m k
    show pyLookup (insertAll (pyDictInsert m p.1 p.2) ps) k = _
    rw [ih]
    cases o : lastLookup ps k with
    | some v => simp [lastLookup, o]
    | none =>
      by_cases hp : p.1 = k <;> simp [lastLookup, o, pyLookup_pyDictInsert, hp]

/-! ### Helper lemmas about string append -/

theorem string_data_append (a b : String) : (a ++ b).data = a.data ++ b.data := by
  cases a; cases b; rfl

theorem string_append_cancel_left {p a b : String} (h : p ++ a = p ++ b) : a = b := by
  have hd : p.data ++ a.data = p.data ++ b.data := by
    rw [← string_data_append, ← string_data_append, h]
  have hab : a.data = b.data := List.append_cancel_left hd
  cases a
  cases b
  exact congrArg String.mk hab

theorem mappingKey_inj {n a b : String} (h : mappingKey n a = mappingKey n b) :
    a = b := by
  unfold mappingKey at h
  exact string_append_cancel_left h

/-! ### Helper lemmas about the run -/

theorem processService_snd (m : List (String × String)) (s : Service) :
    (processService m s).2 =
      match serviceInsertions s with
      | Except.error e => Except.error e
      | Except.ok ins => Except.ok (insertAll m ins) := by
  unfold processService serviceInsertions
  cases he : (get_branches_for_service s.dir).isEmpty with
  | true => simp [he, insertAll]
  | false =>
    cases hr : get_remote_branches_for_service s.name s.git with
    | mk logs r => cases r <;> simp [he, hr]

theorem runStep_snd_congr {a b : List String × Except RunError (List (String × String))}
    (s : Service) (h : a.2 = b.2) : (runStep a s).2 = (runStep b s).2 := by
  obtain ⟨la, ra⟩ := a
  obtain ⟨lb, rb⟩ := b
  simp only at h
  subst h
  cases ra <;> rfl

theorem foldl_runStep_snd_congr :
    ∀ (l : List Service) {a b : List String × Except RunError (List (String × String))},
    a.2 = b.2 → (l.foldl runStep a).2 = (l.foldl runStep b).2 := by
  intro l
  induction l with
  | nil => intro a b h; exact h
  | cons s l ih => intro a b h; exact ih (runStep_snd_congr s h)

theorem foldl_runStep_error :
    ∀ (l : List Service) (logs : List String) (e : RunError),
    (l.foldl runStep (logs, Except.error e)).2 = Except.error e := by
  intro l
  induction l with
  | nil => intro logs e; rfl
  | cons s l ih => intro logs e; exact ih logs e

theorem run_snd_eq_flat :
    ∀ (l : List Service) (logs : List String) (m : List (String × String)),
    (l.foldl runStep (logs, Except.ok m)).2 =
      match flatInsertions l with
      | Except.error e => Except.error e
      | Except.ok ins => Except.ok (insertAll m ins) := by
  intro l
  induction l with
  | nil => intro logs m; rfl
  | cons s l ih =>
    intro logs m
    rw [List.foldl_cons]
    have hstep : runStep (logs, Except.ok m) s =
        (logs ++ (processService m s).1, (processService m s).2) := rfl
    rw [hstep]
    cases hsi : serviceInsertions s with
    | error e =>
      have h2 : (processService m s).2 = Except.error e := by
        rw [processService_snd, hsi]
      have hc := @foldl_runStep_snd_congr l
        (logs ++ (processService m s).1, (processService m s).2)
        (logs, Except.error e) h2
      rw [hc, foldl_runStep_error]
      simp [flatInsertions, hsi]
    | ok ins =>
      have h2 : (processService m s).2 = Except.ok (insertAll m ins) := by
        rw [processService_snd, hsi]
      have hc := @foldl_runStep_snd_congr l
        (logs ++ (processService m s).1, (processService m s).2)
        (logs, Except.ok (insertAll m ins)) h2
      rw [hc, ih]
      cases hf : flatInsertions l <;> simp [flatInsertions, hsi, hf, insertAll_append]

theorem runStep_snd_gitErr
    {acc : List String × Except RunError (List (String × String))}
    (s : Service) (hg : s.git = GitResult.gitCommandError) :
    (runStep acc s).2 = acc.2 := by
  obtain ⟨logs, r⟩ := acc
  cases r with
  | error e => rfl
  | ok m =>
    show (processService m s).2 = Except.ok m
    unfold processService
    cases he : (get_branches_for_service s.dir).isEmpty with
    | true => simp [he]
    | false =>
      rw [hg]
      simp [he, get_remote_branches_for_service, insertAll]

theorem serviceInsertions_eq {s : Service} {remotes : List (String × String)}
    (hne : (get_branches_for_service s.dir).isEmpty = false)
    (hL : (get_remote_branches_for_service s.name s.git).2 = Except.ok remotes) :
    serviceInsertions s = Except.ok
      ((remotes.filter fun p =>
          decide (PyVal.pstr p.2 ∈ get_branches_for_service s.dir)).map
        fun p => (mappingKey s.name p.2, imageTag s.name p.1)) := by
  unfold serviceInsertions
  simp [hne, hL]

theorem serviceInsertions_emptyBranches {s : Service}
    (he : (get_branches_for_service s.dir).isEmpty = true) :
    serviceInsertions s = Except.ok [] := by
  unfold serviceInsertions
  simp [he]

theorem serviceInsertions_error {s : Service} {e : RunError}
    (hne : (get_branches_for_service s.dir).isEmpty = false)
    (hr : (get_remote_branches_for_service s.name s.git).2 = Except.error e) :
    serviceInsertions s = Except.error e := by
  unfold serviceInsertions
  simp [hne, hr]

theorem flatInsertions_keys {k : String} :
    ∀ (l : List Service) (ins : List (String × String)),
    flatInsertions l = Except.ok ins →
    (∀ s' ∈ l, ∀ ins', serviceInsertions s' = Except.ok ins' →
      k ∉ ins'.map Prod.fst) →
    k ∉ ins.map Prod.fst := by
  intro l
  induction l with
  | nil =>
    intro ins hf hall
    have : ([] : List (String × String)) = ins := Except.ok.inj hf
    rw [← this]
    simp
  | cons s l ih =>
    intro ins hf hall
    cases hs : serviceInsertions s with
    | error e =>
      have hcontra : flatInsertions (s :: l) = Except.error e := by
        simp [flatInsertions, hs]
      rw [hcontra] at hf
      simp at hf
    | ok insS =>
      cases hl : flatInsertions l with
      | error e =>
        have hcontra : flatInsertions (s :: l) = Except.error e := by
          simp [flatInsertions, hs, hl]
        rw [hcontra] at hf
        simp at hf
      | ok insRest =>
        have hok : flatInsertions (s :: l) = Except.ok (insS ++ insRest) := by
          simp [flatInsertions, hs, hl]
        rw [hok] at hf
        have hins : insS ++ insRest = ins := Except.ok.inj hf
        rw [← hins, List.map_append]
        intro hm
        rcases List.mem_append.mp hm with hm1 | hm2
        · exact hall s (List.mem_cons_self s l) insS hs hm1
        · exact ih insRest hl
            (fun s' hs' ins' h => hall s' (List.mem_cons_of_mem s hs') ins' h) hm2

theorem flatInsertions_append :
    ∀ (l₁ l₂ : List Service),
    flatInsertions (l₁ ++ l₂) =
      match flatInsertions l₁ with
      | Except.error e => Except.error e
      | Except.ok a =>
        match flatInsertions l₂ with
        | Except.error e => Except.error e
        | Except.ok b => Except.ok (a ++ b) := by
  intro l₁ l₂
  induction l₁ with
  | nil =>
    rw [List.nil_append]
    cases o : flatInsertions l₂ <;> simp [flatInsertions]
  | cons s l₁ ih =>
    rw [List.cons_append]
    show (match serviceInsertions s with
      | Except.error e => Except.error e
      | Except.ok ins =>
        match flatInsertions (l₁ ++ l₂) with
        | Except.error e => Except.error e
        | Except.ok restIns => Except.ok (ins ++ restIns)) = _
    rw [ih]
    cases hs : serviceInsertions s <;>
      cases h1 : flatInsertions l₁ <;>
      cases h2 : flatInsertions l₂ <;>
      simp [flatInsertions, hs, h1, h2, List.append_assoc]

/-! ### Claim theorems -/

/-- C1: if the remote query for one service raises a git command error, the
builder logs a warning identifying that service and treats the service as
having zero remote branches (empty list), and the final mapping of the run is
the final mapping of the same run without that service — so it contains
exactly the correct entries for every other service, and the failure never
aborts the run. -/
theorem C1_remote_failure_isolated (pre post : List Service) (s : Service)
    (hg : s.git = GitResult.gitCommandError) :
    get_remote_branches_for_service s.name s.git
        = ([remoteWarning s.name], Except.ok [])
      ∧ (get_branch_mappings (pre ++ s :: post)).2
        = (get_branch_mappings (pre ++ post)).2 := by
  constructor
  · rw [hg]
    rfl
  · unfold get_branch_mappings
    rw [List.foldl_append, List.foldl_append, List.foldl_cons]
    exact foldl_runStep_snd_congr post (runStep_snd_gitErr s hg)

/-- C1 witness: a concrete two-service run in which the first service's
remote query raises a git command error and the second service is
unaffected. -/
theorem C1_remote_failure_isolated_witness :
    get_remote_branches_for_service svcBad.name svcBad.git
        = ([remoteWarning svcBad.name], Except.ok [])
      ∧ (get_branch_mappings ([] ++ svcBad :: [svcGood])).2
        = (get_branch_mappings ([] ++ [svcGood])).2 :=
  C1_remote_failure_isolated [] [svcGood] svcBad rfl

/-- C3: a configuration file that cannot be parsed is skipped without
aborting the service or the run — the tracked branch set of the service
directory equals the set computed without that file, and the branches
contributed by every other matching file are still included. -/
theorem C3_parse_failure_skips_only_that_file (pre post : List ConfigFile)
    (f : ConfigFile) (hf : f.parsed = none) :
    get_branches_for_service (pre ++ f :: post)
        = get_branches_for_service (pre ++ post)
      ∧ ∀ g ∈ pre ++ post, pyContains g.name "marathon-" = true →
          ∀ x ∈ get_branches_from_marathon_file g.name (read_service_information g),
            x ∈ get_branches_for_service (pre ++ f :: post) := by
  have hzero : get_branches_from_marathon_file f.name (read_service_information f)
      = [] := by
    unfold read_service_information
    rw [hf]
    rfl
  have hstep : ∀ acc, dirStep acc f = acc := by
    intro acc
    unfold dirStep
    rw [hzero]
    cases hc : pyContains f.name "marathon-" <;> simp
  constructor
  · unfold get_branches_for_service
    rw [List.foldl_append, List.foldl_append, List.foldl_cons, hstep]
  · intro g hg hc x hx
    rw [mem_get_branches_for_service]
    refine ⟨g, ?_, hc, hx⟩
    rcases List.mem_append.mp hg with h1 | h2
    · exact List.mem_append.mpr (Or.inl h1)
    · exact List.mem_append.mpr (Or.inr (List.mem_cons_of_mem f h2))

/-- C3 witness: a concrete directory in which an unparseable file sits next
to a parseable one; the unparseable file changes nothing and the other
file's branch survives. -/
theorem C3_parse_failure_skips_only_that_file_witness :
    get_branches_for_service ([fileBranchB] ++ badParseFile :: [])
        = get_branches_for_service ([fileBranchB] ++ [])
      ∧ PyVal.pstr "b" ∈ get_branches_for_service ([fileBranchB] ++ badParseFile :: []) :=
  ⟨(C3_parse_failure_skips_only_that_file [fileBranchB] [] badParseFile rfl).1,
    (C3_parse_failure_skips_only_that_file [fileBranchB] [] badParseFile rfl).2
      fileBranchB (by simp) (by decide) (PyVal.pstr "b") (by decide)⟩

/-- C4: an instance record with neither a `branch` key nor a `docker_image`
key contributes the discriminator token of its file name (the segment after
the first `-` and before the first following `.`) to the tracked branch set,
both at file level and at service level; and for a file name that yields no
token, the instance contributes no branch and resolution returns normally. -/
theorem C4_filename_token_fallback (fname iname t : String)
    (c : InstanceConfig) (config : List (String × InstanceConfig))
    (dir : List ConfigFile)
    (hb : c.branch = none) (hd : c.dockerImagePresent = false)
    (htok : clusterToken fname = some t) (ht : t ≠ "")
    (hmem : (iname, c) ∈ config)
    (hdir : (⟨fname, some config⟩ : ConfigFile) ∈ dir)
    (hmar : pyContains fname "marathon-" = true) :
    PyVal.pstr t ∈ get_branches_from_marathon_file fname config
      ∧ PyVal.pstr t ∈ get_branches_for_service dir
      ∧ ∀ fname', clusterToken fname' = none →
          get_branches_from_marathon_file fname' [(iname, c)] = [] := by
  have htarget : instanceTargetBranch fname c = some (PyVal.pstr t) := by
    unfold instanceTargetBranch
    rw [hb, hd]
    simp [htok]
  have htt : truthy (PyVal.pstr t) = true := by
    simp [truthy, ht]
  have hfile : PyVal.pstr t ∈ get_branches_from_marathon_file fname config :=
    mem_get_branches_from_marathon_file.mpr ⟨(iname, c), hmem, htarget, htt⟩
  refine ⟨hfile, ?_, ?_⟩
  · exact mem_get_branches_for_service.mpr ⟨⟨fname, some config⟩, hdir, hmar, hfile⟩
  · intro fname' htok'
    simp [get_branches_from_marathon_file, fileStep, instanceTargetBranch,
      hb, hd, htok']

/-- C4 witness: the instance `main` of `marathon-devc.yaml`, with no `branch`
and no `docker_image` key, contributes branch `devc`; a file name without a
`-` contributes nothing. -/
theorem C4_filename_token_fallback_witness :
    PyVal.pstr "devc" ∈ get_branches_from_marathon_file "marathon-devc.yaml"
        [("main", (⟨none, false⟩ : InstanceConfig))]
      ∧ PyVal.pstr "devc" ∈ get_branches_for_service [fileNoKeys]
      ∧ get_branches_from_marathon_file "marathon"
          [("main", (⟨none, false⟩ : InstanceConfig))] = [] := by
  have h := C4_filename_token_fallback "marathon-devc.yaml" "main" "devc"
    ⟨none, false⟩ [("main", ⟨none, false⟩)] [fileNoKeys]
    rfl rfl rfl (by decide) (by decide) (by decide) (by decide)
  exact ⟨h.1, h.2.1, h.2.2 "marathon" rfl⟩

/-- C5: an instance record with a `docker_image` key and no `branch` key
contributes no branch, whatever the configuration file is named: its target
branch is `none` for every file name, and removing it from any configuration
file leaves the file's branch set unchanged. -/
theorem C5_docker_image_instance_contributes_nothing (iname : String)
    (c : InstanceConfig) (hd : c.dockerImagePresent = true)
    (hb : c.branch = none) :
    (∀ fname, instanceTargetBranch fname c = none)
      ∧ ∀ fname pre post,
          get_branches_from_marathon_file fname (pre ++ (iname, c) :: post)
            = get_branches_from_marathon_file fname (pre ++ post) := by
  have htb : ∀ fname, instanceTargetBranch fname c = none := by
    intro fname
    unfold instanceTargetBranch
    rw [hb, hd]
    rfl
  refine ⟨htb, ?_⟩
  intro fname pre post
  unfold get_branches_from_marathon_file
  rw [List.foldl_append, List.foldl_append, List.foldl_cons]
  have hstep : ∀ acc, fileStep fname acc (iname, c) = acc := by
    intro acc
    unfold fileStep
    rw [htb fname]
  rw [hstep]

/-- C5 witness: a concrete docker-pinned instance contributes nothing even in
a file named `marathon-devc.yaml`. -/
theorem C5_docker_image_instance_contributes_nothing_witness :
    instanceTargetBranch "marathon-devc.yaml" (⟨none, true⟩ : InstanceConfig) = none
      ∧ get_branches_from_marathon_file "marathon-devc.yaml"
          ([] ++ ("main", (⟨none, true⟩ : InstanceConfig)) :: [])
        = get_branches_from_marathon_file "marathon-devc.yaml" ([] ++ []) := by
  have h := C5_docker_image_instance_contributes_nothing "main" ⟨none, true⟩ rfl rfl
  exact ⟨h.1 "marathon-devc.yaml", h.2 "marathon-devc.yaml" [] []⟩

/-- C6: a remote branch ref whose branch name is not in the service's
tracked branch set never causes an insertion: the key derived from it,
`service:branch`, is not among the keys the service inserts into the
mapping. -/
theorem C6_untracked_branch_never_inserted (s : Service) (b : String)
    (hb : PyVal.pstr b ∉ get_branches_for_service s.dir)
    (ins : List (String × String))
    (hins : serviceInsertions s = Except.ok ins) :
    mappingKey s.name b ∉ ins.map Prod.fst := by
  intro hmem
  cases he : (get_branches_for_service s.dir).isEmpty with
  | true =>
    rw [serviceInsertions_emptyBranches he] at hins
    have : ([] : List (String × String)) = ins := Except.ok.inj hins
    rw [← this] at hmem
    simp at hmem
  | false =>
    cases hr : (get_remote_branches_for_service s.name s.git).2 with
    | error e =>
      rw [serviceInsertions_error he hr] at hins
      simp at hins
    | ok remotes =>
      rw [serviceInsertions_eq he hr] at hins
      have hlist := Except.ok.inj hins
      rw [← hlist, List.map_map] at hmem
      rcases List.mem_map.mp hmem with ⟨p, hpf, hpk⟩
      have hp2 : p.2 = b := mappingKey_inj hpk
      have hpred := (List.mem_filter.mp hpf).2
      rw [hp2] at hpred
      exact hb (of_decide_eq_true hpred)

/-- C6 witness: `svcGood` tracks only `b`; its remote listing also names the
untracked branch `c`, and the key `good:c` is not among its insertions. -/
theorem C6_untracked_branch_never_inserted_witness :
    mappingKey svcGood.name "c" ∉
      ([("good:b", "good:123456")] : List (String × String)).map Prod.fst :=
  C6_untracked_branch_never_inserted svcGood "c" (by decide)
    [("good:b", "good:123456")] rfl

/-- C7: a second insertion into the accumulating deployment mapping under an
already-present key silently overwrites the earlier value — the lookup of
that key yields the later value — and the lookup of every other key is
unaffected; no error is raised (insertion is a total function). -/
theorem C7_last_write_wins (m : List (String × String)) (k v1 v2 : String)
    (hprev : pyLookup m k = some v1) :
    pyLookup (pyDictInsert m k v2) k = some v2
      ∧ ∀ k', k' ≠ k → pyLookup (pyDictInsert m k v2) k' = pyLookup m k' := by
  constructor
  · rw [pyLookup_pyDictInsert]
    simp
  · intro k' hk
    rw [pyLookup_pyDictInsert]
    rw [if_neg (fun hh => hk hh.symm)]

/-- C7 witness: overwriting the key `k` in a two-entry dict replaces its
value and leaves the key `a` untouched. -/
theorem C7_last_write_wins_witness :
    pyLookup (pyDictInsert [("a", "1"), ("k", "v1")] "k" "v2") "k" = some "v2"
      ∧ pyLookup (pyDictInsert [("a", "1"), ("k", "v1")] "k" "v2") "a"
        = pyLookup [("a", "1"), ("k", "v1")] "a" := by
  have h := C7_last_write_wins [("a", "1"), ("k", "v1")] "k" "v1" "v2" rfl
  exact ⟨h.1, h.2 "a" (by decide)⟩

/-- C8: an instance record whose `branch` key is present but maps to a falsy
value (the empty string or `None`) contributes no branch, and the
filename-derived fallback is not applied to it even though the record also
lacks `docker_image`: its target branch is the falsy `branch` value itself
for every file name, and removing the instance from any configuration file
leaves the file's branch set unchanged. -/
theorem C8_falsy_branch_value_contributes_nothing (iname : String)
    (c : InstanceConfig) (v : PyVal)
    (hb : c.branch = some v) (hv : truthy v = false)
    (hd : c.dockerImagePresent = false) :
    (∀ fname, instanceTargetBranch fname c = some v)
      ∧ ∀ fname pre post,
          get_branches_from_marathon_file fname (pre ++ (iname, c) :: post)
            = get_branches_from_marathon_file fname (pre ++ post) := by
  have htb : ∀ fname, instanceTargetBranch fname c = some v := by
    intro fname
    unfold instanceTargetBranch
    rw [hb]
  refine ⟨htb, ?_⟩
  intro fname pre post
  unfold get_branches_from_marathon_file
  rw [List.foldl_append, List.foldl_append, List.foldl_cons]
  have hstep : ∀ acc, fileStep fname acc (iname, c) = acc := by
    intro acc
    unfold fileStep
    rw [htb fname]
    simp [hv]
  rw [hstep]

/-- C8 witness: an instance with `branch` present but empty, and no
`docker_image`, contributes nothing even in a file whose name carries the
truthy token `devc`; its target stays the empty branch value. -/
theorem C8_falsy_branch_value_contributes_nothing_witness :
    instanceTargetBranch "marathon-devc.yaml"
        (⟨some (PyVal.pstr ""), false⟩ : InstanceConfig) = some (PyVal.pstr "")
      ∧ get_branches_from_marathon_file "marathon-devc.yaml"
          ([] ++ ("main", (⟨some (PyVal.pstr ""), false⟩ : InstanceConfig)) :: [])
        = get_branches_from_marathon_file "marathon-devc.yaml" ([] ++ []) := by
  have h := C8_falsy_branch_value_contributes_nothing "main"
    ⟨some (PyVal.pstr ""), false⟩ (PyVal.pstr "") rfl rfl rfl
  exact ⟨h.1 "marathon-devc.yaml", h.2 "marathon-devc.yaml" [] []⟩

/-- C9: when the remote query command succeeds but a returned line lacks a
tab separator or a `refs/heads/` segment — in particular when the remote has
no branches, so the output is the empty string — the per-line parse raises
an `IndexError` that the handler (which catches only git command errors)
does not catch, aborting the entire run: later services are not processed
and no mapping is produced. -/
theorem C9_unparseable_remote_output_aborts_run :
    parseRemoteBranchLine "" = Except.error RunError.indexError
      ∧ parseRemoteBranchLine "abc\tnothead" = Except.error RunError.indexError
      ∧ (get_remote_branches_for_service "svc" (GitResult.ok "")).2
        = Except.error RunError.indexError
      ∧ PyVal.pstr "b" ∈ get_branches_for_service svcEmptyOutput.dir
      ∧ (get_branch_mappings [svcEmptyOutput]).2
        = Except.error RunError.indexError
      ∧ (get_branch_mappings [svcEmptyOutput, svcGood]).2
        = Except.error RunError.indexError :=
  ⟨rfl, rfl, rfl, by decide, rfl, rfl⟩

/-- C10: a file is read for branch resolution exactly when the substring
`marathon-` occurs anywhere in its name — not only when the name starts with
it — so `not-a-marathon-devc.yaml` (which does not start with `marathon-`)
is also read and contributes a branch. -/
theorem C10_substring_selects_files :
    (∀ (fname : String) (parsed : Option (List (String × InstanceConfig)))
        (x : PyVal),
      x ∈ get_branches_for_service [⟨fname, parsed⟩] ↔
        pyContains fname "marathon-" = true ∧
          x ∈ get_branches_from_marathon_file fname
            (read_service_information ⟨fname, parsed⟩))
      ∧ pyContains "not-a-marathon-devc.yaml" "marathon-" = true
      ∧ pyTake "not-a-marathon-devc.yaml" 9 ≠ "marathon-"
      ∧ PyVal.pstr "a" ∈ get_branches_for_service
          [⟨"not-a-marathon-devc.yaml", some [("main", ⟨none, false⟩)]⟩] := by
  refine ⟨?_, rfl, by decide, by decide⟩
  intro fname parsed x
  rw [mem_get_branches_for_service]
  simp

/-- C2 counterexample: the claim as stated fails when a service's remote
listing contains two pairs with the same branch name.  For `svcDup`, branch
`b` is tracked and the listing contains the pair `("aaaaaaaaaa", "b")`, yet
the final mapping maps `svc:b` to `svc:bbbbbb` — the short commit of the
later pair — and not to `svc:aaaaaa`, the first 6 characters of
`"aaaaaaaaaa"`. -/
theorem C2_counterexample :
    PyVal.pstr "b" ∈ get_branches_for_service svcDup.dir
      ∧ (get_remote_branches_for_service svcDup.name svcDup.git).2
        = Except.ok [("aaaaaaaaaa", "b"), ("bbbbbbbbbb", "b")]
      ∧ (get_branch_mappings [svcDup]).2 = Except.ok [("svc:b", "svc:bbbbbb")]
      ∧ pyLookup [("svc:b", "svc:bbbbbb")] (mappingKey svcDup.name "b")
        ≠ some (imageTag svcDup.name "aaaaaaaaaa") :=
  ⟨by decide, rfl, rfl, by decide⟩

/-- C2 (amended): for every service `svc` whose tracked branch set contains
branch name `b` and whose remote branch listing contains the pair
`(commit c, branch b)`, if that pair is moreover the last pair of the listing
with branch name `b`, no later-processed service inserts the key `svc:b`,
and the run completes without an uncaught exception, then the final mapping
maps the key `svc:b` to `svc:` followed by exactly the first 6 characters of
the full commit identifier `c`. -/
theorem C2_amended_short_commit_mapping
    (pre post : List Service) (s : Service) (c b : String)
    (L1 L2 : List (String × String)) (M : List (String × String))
    (hL : (get_remote_branches_for_service s.name s.git).2
      = Except.ok (L1 ++ (c, b) :: L2))
    (hlast : ∀ p ∈ L2, p.2 ≠ b)
    (htr : PyVal.pstr b ∈ get_branches_for_service s.dir)
    (hpost : ∀ s' ∈ post, ∀ ins, serviceInsertions s' = Except.ok ins →
      mappingKey s.name b ∉ ins.map Prod.fst)
    (hok : (get_branch_mappings (pre ++ s :: post)).2 = Except.ok M) :
    pyLookup M (mappingKey s.name b) = some (imageTag s.name c) := by
  have hne : (get_branches_for_service s.dir).isEmpty = false :=
    isEmpty_false_of_mem htr
  have hsi := serviceInsertions_eq hne hL
  obtain ⟨insS, hIS⟩ : ∃ ins,
      (((L1 ++ (c, b) :: L2).filter fun p =>
          decide (PyVal.pstr p.2 ∈ get_branches_for_service s.dir)).map
        fun p => (mappingKey s.name p.2, imageTag s.name p.1)) = ins :=
    ⟨_, rfl⟩
  rw [hIS] at hsi
  unfold get_branch_mappings at hok
  rw [run_snd_eq_flat] at hok
  cases hp : flatInsertions pre with
  | error e =>
    have hcontra : flatInsertions (pre ++ s :: post) = Except.error e := by
      rw [flatInsertions_append, hp]
    rw [hcontra] at hok
    simp at hok
  | ok insPre =>
    cases hq : flatInsertions post with
    | error e =>
      have hcontra : flatInsertions (pre ++ s :: post) = Except.error e := by
        rw [flatInsertions_append, hp]
        simp [flatInsertions, hsi, hq]
      rw [hcontra] at hok
      simp at hok
    | ok insPost =>
      have hflat : flatInsertions (pre ++ s :: post)
          = Except.ok (insPre ++ (insS ++ insPost)) := by
        rw [flatInsertions_append, hp]
        simp [flatInsertions, hsi, hq]
      rw [hflat] at hok
      have hM : insertAll [] (insPre ++ (insS ++ insPost)) = M := by
        simpa using hok
      have hpostnone : lastLookup insPost (mappingKey s.name b) = none :=
        lastLookup_eq_none (flatInsertions_keys post insPost hq hpost)
      have hinsS : lastLookup insS (mappingKey s.name b)
          = some (imageTag s.name c) := by
        rw [← hIS, List.filter_append, List.map_append]
        have hpred : (decide (PyVal.pstr ((c, b) : String × String).2
            ∈ get_branches_for_service s.dir)) = true := decide_eq_true htr
        rw [List.filter_cons, if_pos hpred, List.map_cons]
        have hF2 : lastLookup ((L2.filter fun p =>
              decide (PyVal.pstr p.2 ∈ get_branches_for_service s.dir)).map
            fun p => (mappingKey s.name p.2, imageTag s.name p.1))
            (mappingKey s.name b) = none := by
          apply lastLookup_eq_none
          intro hm
          rw [List.map_map] at hm
          rcases List.mem_map.mp hm with ⟨p, hpf, hpk⟩
          have hp2 : p.2 = b := mappingKey_inj hpk
          exact hlast p (List.mem_filter.mp hpf).1 hp2
        rw [lastLookup_append]
        have hcons : lastLookup
            ((mappingKey s.name ((c, b) : String × String).2,
                imageTag s.name ((c, b) : String × String).1) ::
              ((L2.filter fun p =>
                  decide (PyVal.pstr p.2 ∈ get_branches_for_service s.dir)).map
                fun p => (mappingKey s.name p.2, imageTag s.name p.1)))
            (mappingKey s.name b) = some (imageTag s.name c) := by
          show (match lastLookup _ (mappingKey s.name b) with
            | some v => some v
            | none => if mappingKey s.name b = mappingKey s.name b
                then some (imageTag s.name c) else none) = _
          rw [hF2]
          simp
        rw [hcons]
      rw [← hM, pyLookup_insertAll, lastLookup_append, lastLookup_append,
        hpostnone, hinsS]

/-- C2 witness: a concrete one-service run in which the tracked branch `b`
appears exactly once in the remote listing, at commit `1234567890`, and the
final mapping sends `good:b` to `good:123456`. -/
theorem C2_amended_short_commit_mapping_witness :
    pyLookup [("good:b", "good:123456")] (mappingKey svcGood.name "b")
      = some (imageTag svcGood.name "1234567890") :=
  C2_amended_short_commit_mapping [] [] svcGood "1234567890" "b"
    [] [("fedcba9876", "c")] [("good:b", "good:123456")]
    rfl (by decide) (by decide) (by simp) rfl

end GenerateDeploymentsJson
